import Mathlib

/-
Shallow embedding of the physical-memory manager in src/oscode2.h.

Conventions of the embedding:
* The intrusive doubly-linked block lists of the C code (free_blocks,
  allocated_blocks) are modelled as Lean lists in list order; the next/prev
  pointer fields of memory_block_t are represented by the list structure
  itself, and pointer surgery (unlink, insert-after, replace) becomes the
  corresponding list operation on the node's position.
* uint32_t quantities are modelled as Nat.  In every state the manager can
  construct, addresses and block sizes are bounded by total_memory < 2^32, so
  no modelled uint32_t computation wraps and Nat arithmetic agrees with the C
  arithmetic.  The available_memory counter, which is both incremented and
  decremented, is modelled as Int so that subtraction is exact.
* The processes array (64 slots) is a list read with getD and written with
  set; the page-frame bitmap is a list of words, 0 = free, 1 = allocated.
* Block headers live inside the managed memory in the C code; the byte-level
  placement of headers and the memmove done by memory_defragment move payload
  bytes only and are not observable through the block lists, so they are not
  modelled.
-/

set_option maxHeartbeats 1000000

/-- PAGE_SIZE from src/oscode2.h. -/
def PAGE_SIZE : Nat := 4096

/-- MAX_PROCESSES from src/oscode2.h. -/
def MAX_PROCESSES : Nat := 64

/-- KERNEL_HEAP_SIZE (8 MB) from src/oscode2.h. -/
def KERNEL_HEAP_SIZE : Nat := 8 * 1024 * 1024

/-- UINT32_MAX, the initial value of best_size in find_free_block. -/
def UINT32_MAX : Nat := 4294967295

/-- sizeof(memory_block_t) on the 32-bit target the code is written for:
two uint32_t, a 4-byte enum, a uint32_t, a padded bool and two 4-byte
pointers, 28 bytes in total.  Used by memory_init for the placement of the
initial header and by memory_alloc_aligned as the split threshold. -/
def sizeof_memory_block : Nat := 28

/-- memory_type_t. -/
inductive MemoryType where
  | free
  | kernel
  | user
  | game
  | graphics
  | audio
  | reserved
deriving DecidableEq

/-- memory_block_t without the next/prev pointers (the list carries them). -/
structure MemoryBlock where
  address : Nat
  size : Nat
  type : MemoryType
  process_id : Nat
  is_free : Bool
deriving DecidableEq

/-- process_memory_t. -/
structure ProcessMemory where
  process_id : Nat
  page_directory : Nat
  heap_start : Nat
  heap_end : Nat
  stack_start : Nat
  stack_end : Nat
  code_start : Nat
  code_end : Nat
  total_allocated : Nat
  is_active : Bool
deriving DecidableEq

/-- memory_manager_t (the kernel_heap/user_heap scratch pointers are unused
by every modelled operation and are omitted). -/
structure MemoryManager where
  total_memory : Nat
  available_memory : Int
  kernel_memory_start : Nat
  kernel_memory_end : Nat
  user_memory_start : Nat
  user_memory_end : Nat
  free_blocks : List MemoryBlock
  allocated_blocks : List MemoryBlock
  processes : List ProcessMemory
  current_process : Nat
  page_frames : List Nat
  total_pages : Nat
  free_pages : Nat
  allocations : Nat
  deallocations : Nat
  fragmentation_count : Nat
deriving DecidableEq

/-- An all-zero process_memory_t slot (memset to 0). -/
def zero_process : ProcessMemory :=
  { process_id := 0, page_directory := 0, heap_start := 0, heap_end := 0,
    stack_start := 0, stack_end := 0, code_start := 0, code_end := 0,
    total_allocated := 0, is_active := false }

/-- memory_init: lays out the kernel/user zones, zeroes the page bitmap and
installs one free block spanning the user zone (its header occupies the first
sizeof(memory_block_t) bytes of the zone, so the block's address starts just
after the header). -/
def memory_init (total_memory kernel_start : Nat) : MemoryManager :=
  let kernel_memory_end := kernel_start + KERNEL_HEAP_SIZE
  let user_memory_start := kernel_memory_end
  let user_memory_end := total_memory
  let total_pages := total_memory / PAGE_SIZE
  let initial_address := user_memory_start + sizeof_memory_block
  let initial_block : MemoryBlock :=
    { address := initial_address, size := user_memory_end - initial_address,
      type := MemoryType.free, process_id := 0, is_free := true }
  { total_memory := total_memory,
    available_memory := (total_memory : Int),
    kernel_memory_start := kernel_start,
    kernel_memory_end := kernel_memory_end,
    user_memory_start := user_memory_start,
    user_memory_end := user_memory_end,
    free_blocks := [initial_block],
    allocated_blocks := [],
    processes := List.replicate MAX_PROCESSES zero_process,
    current_process := 0,
    page_frames := List.replicate total_pages 0,
    total_pages := total_pages,
    free_pages := total_pages,
    allocations := 0,
    deallocations := 0,
    fragmentation_count := 0 }

/-- (addr + alignment - 1) & ~(alignment - 1) of the C code: for a power of
two alignment the mask clears the low bits of addr + alignment - 1, which is
exactly subtracting its remainder mod alignment. -/
def align_up (addr alignment : Nat) : Nat :=
  (addr + alignment - 1) - ((addr + alignment - 1) % alignment)

/-- The test a free-list node must pass inside find_free_block:
it is free, at least size bytes large, and still at least size bytes large
after the padding needed to align its address. -/
def fits (size alignment : Nat) (block : MemoryBlock) : Prop :=
  block.is_free = true ∧ size ≤ block.size ∧
    size + (align_up block.address alignment - block.address) ≤ block.size

instance (size alignment : Nat) (block : MemoryBlock) :
    Decidable (fits size alignment block) := by
  unfold fits; infer_instance

/-- The scan loop of find_free_block, carrying best_fit and best_size
(initialised to UINT32_MAX by the caller). -/
def find_free_block_loop (size alignment : Nat) :
    List MemoryBlock → Option MemoryBlock → Nat → Option MemoryBlock
  | [], best_fit, _ => best_fit
  | block :: rest, best_fit, best_size =>
    if fits size alignment block then
      if block.size < best_size then
        find_free_block_loop size alignment rest (some block) block.size
      else
        find_free_block_loop size alignment rest best_fit best_size
    else
      find_free_block_loop size alignment rest best_fit best_size

/-- find_free_block: best-fit search of the free list. -/
def find_free_block (mm : MemoryManager) (size alignment : Nat) :
    Option MemoryBlock :=
  find_free_block_loop size alignment mm.free_blocks none UINT32_MAX

/-- merge_free_blocks: a single forward pass over the free list; a node whose
list successor is free and starts exactly where it ends absorbs the successor,
after which the cursor moves to the node after the absorbed one (block =
block->next where block->next was just rewritten). -/
def merge_free_blocks : List MemoryBlock → List MemoryBlock
  | [] => []
  | [b] => [b]
  | b :: c :: rest =>
    if c.is_free ∧ b.address + b.size = c.address then
      { b with size := b.size + c.size } :: merge_free_blocks rest
    else
      b :: merge_free_blocks (c :: rest)

/-- The allocated-list walk of memory_defragment: every non-free block has its
address rewritten to the running cursor (initially user_memory_start) and the
cursor advances by the block's size; returns the rewritten list and the final
cursor. -/
def defrag_walk (cursor : Nat) : List MemoryBlock → List MemoryBlock × Nat
  | [] => ([], cursor)
  | b :: rest =>
    if b.is_free then
      let p := defrag_walk cursor rest
      (b :: p.1, p.2)
    else
      let p := defrag_walk (cursor + b.size) rest
      ({ b with address := cursor } :: p.1, p.2)

/-- memory_defragment: compacts the allocated list to the front of the user
zone, then rewrites the first free-list node (if any) to start at the final
cursor and cover the rest of the user zone; the remaining free-list nodes are
not touched.  Increments fragmentation_count unconditionally. -/
def memory_defragment (mm : MemoryManager) : MemoryManager :=
  let p := defrag_walk mm.user_memory_start mm.allocated_blocks
  let new_free :=
    match mm.free_blocks with
    | [] => []
    | f :: rest =>
      { f with address := p.2, size := mm.user_memory_end - p.2 } :: rest
  { mm with
    allocated_blocks := p.1,
    free_blocks := new_free,
    fragmentation_count := mm.fragmentation_count + 1 }

/-- The linear search-and-unlink of memory_free: find the first allocated
block whose address matches and remove it from the list. -/
def remove_by_address : List MemoryBlock → Nat → Option MemoryBlock × List MemoryBlock
  | [], _ => (none, [])
  | b :: rest, addr =>
    if b.address = addr then (some b, rest)
    else
      let p := remove_by_address rest addr
      (p.1, b :: p.2)

/-- memory_free: null pointers and addresses absent from the allocated list
fail with -1 and change nothing; otherwise the block is unlinked, marked free,
pushed to the head of the free list, the counters updated (available_memory
grows by the block's recorded size), and the coalescing pass runs. -/
def memory_free (mm : MemoryManager) (addr : Nat) : Int × MemoryManager :=
  if addr = 0 then (-1, mm)
  else
    match remove_by_address mm.allocated_blocks addr with
    | (none, _) => (-1, mm)
    | (some block, rest) =>
      let freed : MemoryBlock :=
        { block with type := MemoryType.free, process_id := 0, is_free := true }
      (0,
       { mm with
         allocated_blocks := rest,
         free_blocks := merge_free_blocks (freed :: mm.free_blocks),
         deallocations := mm.deallocations + 1,
         available_memory := mm.available_memory + (block.size : Int) })

/-- Remove the first occurrence of a block value from a list (unlinking the
node the search returned). -/
def remove_block : List MemoryBlock → MemoryBlock → List MemoryBlock
  | [], _ => []
  | x :: xs, b => if x = b then xs else x :: remove_block xs b

/-- Replace the first occurrence of a block value by another (the C code
inserts the new node after the old one and then unlinks the old one, which
leaves the new node in the old node's list position). -/
def replace_block : List MemoryBlock → MemoryBlock → MemoryBlock → List MemoryBlock
  | [], _, _ => []
  | x :: xs, b, nb => if x = b then nb :: xs else x :: replace_block xs b nb

/-- The commit path of memory_alloc_aligned once a free block has been found:
compute the aligned address and padding, split the block when the remainder
strictly exceeds one header, move it to the head of the allocated list with
its tag/owner/address rewritten, bump the allocation counter and subtract the
requested size (only) from available_memory. -/
def alloc_from_block (mm : MemoryManager) (size alignment : Nat)
    (ty : MemoryType) (block : MemoryBlock) : Option Nat × MemoryManager :=
  let aligned_addr := align_up block.address alignment
  let padding := aligned_addr - block.address
  let new_free_blocks :=
    if size + padding + sizeof_memory_block < block.size then
      replace_block mm.free_blocks block
        { address := aligned_addr + size,
          size := block.size - size - padding,
          type := MemoryType.free, process_id := 0, is_free := true }
    else
      remove_block mm.free_blocks block
  let new_size :=
    if size + padding + sizeof_memory_block < block.size then size + padding
    else block.size
  let allocated : MemoryBlock :=
    { address := aligned_addr, size := new_size, type := ty,
      process_id := mm.current_process, is_free := false }
  (some aligned_addr,
   { mm with
     free_blocks := new_free_blocks,
     allocated_blocks := allocated :: mm.allocated_blocks,
     allocations := mm.allocations + 1,
     available_memory := mm.available_memory - (size : Int) })

/-- memory_alloc_aligned: zero sizes fail; otherwise best-fit search, one
defragmentation retry on failure, then the commit path. -/
def memory_alloc_aligned (mm : MemoryManager) (size alignment : Nat)
    (ty : MemoryType) : Option Nat × MemoryManager :=
  if size = 0 then (none, mm)
  else
    match find_free_block mm size alignment with
    | some block => alloc_from_block mm size alignment ty block
    | none =>
      let mm1 := memory_defragment mm
      match find_free_block mm1 size alignment with
      | some block => alloc_from_block mm1 size alignment ty block
      | none => (none, mm1)

/-- memory_alloc: default 4-byte alignment. -/
def memory_alloc (mm : MemoryManager) (size : Nat) (ty : MemoryType) :
    Option Nat × MemoryManager :=
  memory_alloc_aligned mm size 4 ty

/-- process_alloc: swaps the manager's current-owner field to the process,
performs a default-alignment user allocation, adds the requested size to the
slot's running total on success, and restores the previous owner. -/
def process_alloc (mm : MemoryManager) (process_id size : Nat) :
    Option Nat × MemoryManager :=
  if MAX_PROCESSES ≤ process_id then (none, mm)
  else
    let proc := mm.processes.getD process_id zero_process
    if proc.is_active = false then (none, mm)
    else
      let old_process := mm.current_process
      let mm1 := { mm with current_process := process_id }
      let r := memory_alloc mm1 size MemoryType.user
      let mm3 :=
        match r.1 with
        | some _ =>
          let proc' := { proc with total_allocated := proc.total_allocated + size }
          { r.2 with processes := r.2.processes.set process_id proc' }
        | none => r.2
      (r.1, { mm3 with current_process := old_process })

/-- The release loop of process_memory_destroy: walk the snapshot of the
allocated list (the C code captures each next pointer before freeing) and
release every block whose owner tag matches. -/
def destroy_loop (process_id : Nat) (mm : MemoryManager) :
    List MemoryBlock → MemoryManager
  | [] => mm
  | b :: rest =>
    let mm' :=
      if b.process_id = process_id then (memory_free mm b.address).2 else mm
    destroy_loop process_id mm' rest

/-- process_memory_destroy: fails on an out-of-range id or an inactive slot;
otherwise releases every allocated block tagged with the process id and
zeroes the slot. -/
def process_memory_destroy (mm : MemoryManager) (process_id : Nat) :
    Int × MemoryManager :=
  if MAX_PROCESSES ≤ process_id then (-1, mm)
  else if (mm.processes.getD process_id zero_process).is_active = false then (-1, mm)
  else
    let mm1 := destroy_loop process_id mm mm.allocated_blocks
    (0, { mm1 with processes := mm1.processes.set process_id zero_process })

/-- The first-fit scan of alloc_page over the page bitmap (index of the first
word equal to 0). -/
def first_free_page : List Nat → Option Nat
  | [] => none
  | f :: rest =>
    if f = 0 then some 0 else (first_free_page rest).map (· + 1)

/-- alloc_page: first-fit scan from page 0; marks the page allocated,
decrements the free-page counter and returns page_index * PAGE_SIZE; with no
free page it returns 0, the same value a successful allocation of page 0
returns. -/
def alloc_page (mm : MemoryManager) : Nat × MemoryManager :=
  match first_free_page mm.page_frames with
  | some i =>
    (i * PAGE_SIZE,
     { mm with page_frames := mm.page_frames.set i 1,
               free_pages := mm.free_pages - 1 })
  | none => (0, mm)

/-- Total size of a list of blocks. -/
def sum_sizes (l : List MemoryBlock) : Nat :=
  (l.map MemoryBlock.size).sum

/-- A small manager state used to instantiate theorems on concrete inputs:
the block lists vary, everything else is fixed and well in range. -/
def test_mm (free allocated : List MemoryBlock) : MemoryManager :=
  { total_memory := 1000000,
    available_memory := 500000,
    kernel_memory_start := 0,
    kernel_memory_end := 100,
    user_memory_start := 100,
    user_memory_end := 1000000,
    free_blocks := free,
    allocated_blocks := allocated,
    processes := List.replicate MAX_PROCESSES zero_process,
    current_process := 0,
    page_frames := [],
    total_pages := 0,
    free_pages := 0,
    allocations := 0,
    deallocations := 0,
    fragmentation_count := 0 }

lemma remove_by_address_no_match (l : List MemoryBlock) (addr : Nat)
    (h : ∀ b ∈ l, b.address ≠ addr) : remove_by_address l addr = (none, l) := by
  induction l with
  | nil => rfl
  | cons b rest ih =>
    have hb : b.address ≠ addr := h b (List.mem_cons_self _ _)
    simp only [remove_by_address, if_neg hb,
      ih (fun x hx => h x (List.mem_cons_of_mem _ hx))]

lemma align_up_mod (addr alignment : Nat) :
    align_up addr alignment % alignment = 0 := by
  unfold align_up
  have h := Nat.mod_add_div (addr + alignment - 1) alignment
  have h2 : (addr + alignment - 1) - ((addr + alignment - 1) % alignment)
      = alignment * ((addr + alignment - 1) / alignment) := by omega
  rw [h2]
  exact Nat.mul_mod_right _ _

/-- Claim C10: memory_free checks the pointer for null before anything else;
releasing a null pointer returns the error status and leaves the whole
manager state unchanged, whatever the state is. -/
theorem memory_free_null (mm : MemoryManager) : memory_free mm 0 = (-1, mm) := rfl

/-- Claim C6: releasing an address that is not the address of any block in
the allocated list returns -1 (NOT_FOUND) and leaves the entire manager state
(lists, counters, available_memory) unchanged. -/
theorem memory_free_not_found (mm : MemoryManager) (addr : Nat)
    (h : ∀ b ∈ mm.allocated_blocks, b.address ≠ addr) :
    memory_free mm addr = (-1, mm) := by
  unfold memory_free
  rcases eq_or_ne addr 0 with h0 | h0
  · simp [h0]
  · rw [if_neg h0, remove_by_address_no_match _ _ h]

theorem memory_free_not_found_witness :
    (∀ b ∈ (test_mm [] [⟨200, 40, MemoryType.user, 0, false⟩]).allocated_blocks,
        b.address ≠ 12345) ∧
    memory_free (test_mm [] [⟨200, 40, MemoryType.user, 0, false⟩]) 12345
      = (-1, test_mm [] [⟨200, 40, MemoryType.user, 0, false⟩]) :=
  ⟨by decide, memory_free_not_found _ 12345 (by decide)⟩

/-- Claim C7: a successful memory_alloc_aligned with a power-of-two alignment
returns an address that is a multiple of the alignment (the committed address
is always align_up of the chosen block's address). -/
theorem memory_alloc_aligned_mod (mm : MemoryManager) (size alignment : Nat)
    (ty : MemoryType) (addr : Nat) (hpow : ∃ k, alignment = 2 ^ k)
    (h : (memory_alloc_aligned mm size alignment ty).1 = some addr) :
    addr % alignment = 0 := by
  unfold memory_alloc_aligned at h
  split at h
  · exact absurd h (by simp)
  · split at h
    · simp only [alloc_from_block, Option.some.injEq] at h
      exact h ▸ align_up_mod _ _
    · dsimp only at h
      split at h
      · simp only [alloc_from_block, Option.some.injEq] at h
        exact h ▸ align_up_mod _ _
      · exact absurd h (by simp)

theorem memory_alloc_aligned_mod_witness :
    (∃ k, (16 : Nat) = 2 ^ k) ∧ (48 : Nat) % 16 = 0 :=
  ⟨⟨4, rfl⟩,
   memory_alloc_aligned_mod
     (test_mm [⟨35, 100, MemoryType.free, 0, true⟩] []) 20 16 MemoryType.user 48
     ⟨4, rfl⟩ (by decide)⟩

/-- A manager state whose page bitmap varies, for the page-allocator claims. -/
def pages_mm (pf : List Nat) : MemoryManager :=
  { (test_mm [] []) with
    page_frames := pf,
    total_pages := pf.length,
    free_pages := (pf.filter (fun f => decide (f = 0))).length }

lemma first_free_page_none (l : List Nat) (h : ∀ f ∈ l, f ≠ 0) :
    first_free_page l = none := by
  induction l with
  | nil => rfl
  | cons f rest ih =>
    have hf := h f (List.mem_cons_self _ _)
    simp [first_free_page, if_neg hf,
      ih (fun x hx => h x (List.mem_cons_of_mem _ hx))]

lemma first_free_page_at (l : List Nat) (i : Nat) (h0 : l.getD i 1 = 0)
    (hlt : ∀ j, j < i → l.getD j 1 ≠ 0) : first_free_page l = some i := by
  induction l generalizing i with
  | nil => simp [List.getD] at h0
  | cons f rest ih =>
    cases i with
    | zero =>
      simp only [List.getD_cons_zero] at h0
      simp [first_free_page, h0]
    | succ i' =>
      have hf : f ≠ 0 := by
        have := hlt 0 (Nat.succ_pos _)
        simpa using this
      have h0' : rest.getD i' 1 = 0 := by simpa using h0
      have hlt' : ∀ j, j < i' → rest.getD j 1 ≠ 0 := by
        intro j hj
        have := hlt (j + 1) (Nat.succ_lt_succ hj)
        simpa using this
      simp [first_free_page, if_neg hf, ih i' h0' hlt']

/-- Claim C9: alloc_page scans the bitmap first-fit from index 0 and returns
page_index * PAGE_SIZE for the first free page (marking it allocated and
decrementing the free-page count); with no free page it returns 0 and changes
nothing, so a failing call returns the same value as a successful allocation
of page index 0. -/
theorem alloc_page_first_fit (mm : MemoryManager) :
    ((∀ f ∈ mm.page_frames, f ≠ 0) → alloc_page mm = (0, mm)) ∧
    (∀ i, mm.page_frames.getD i 1 = 0 →
      (∀ j, j < i → mm.page_frames.getD j 1 ≠ 0) →
      alloc_page mm = (i * PAGE_SIZE,
        { mm with page_frames := mm.page_frames.set i 1,
                  free_pages := mm.free_pages - 1 })) := by
  constructor
  · intro h
    unfold alloc_page
    rw [first_free_page_none _ h]
  · intro i h0 hlt
    unfold alloc_page
    rw [first_free_page_at _ i h0 hlt]

theorem alloc_page_first_fit_witness :
    ((∀ f ∈ (pages_mm [1, 1, 1]).page_frames, f ≠ 0) ∧
      alloc_page (pages_mm [1, 1, 1]) = (0, pages_mm [1, 1, 1])) ∧
    alloc_page (pages_mm [1, 0, 1]) = (1 * PAGE_SIZE,
      { pages_mm [1, 0, 1] with
        page_frames := (pages_mm [1, 0, 1]).page_frames.set 1 1,
        free_pages := (pages_mm [1, 0, 1]).free_pages - 1 }) ∧
    (alloc_page (pages_mm [0, 1])).1 = 0 :=
  ⟨⟨by decide, (alloc_page_first_fit (pages_mm [1, 1, 1])).1 (by decide)⟩,
   (alloc_page_first_fit (pages_mm [1, 0, 1])).2 1 (by decide) (by decide),
   by
     have h := (alloc_page_first_fit (pages_mm [0, 1])).2 0 (by decide) (by decide)
     rw [h]
     simp⟩

lemma find_free_block_loop_spec (size alignment : Nat) :
    ∀ (l : List MemoryBlock) (best : Option MemoryBlock) (bs : Nat),
      (find_free_block_loop size alignment l best bs = best ∧
        ∀ c ∈ l, fits size alignment c → bs ≤ c.size) ∨
      (∃ b l₁ l₂, find_free_block_loop size alignment l best bs = some b ∧
        l = l₁ ++ b :: l₂ ∧ fits size alignment b ∧ b.size < bs ∧
        (∀ c ∈ l₁, fits size alignment c → bs ≤ c.size ∨ b.size < c.size) ∧
        (∀ c ∈ l₂, fits size alignment c → b.size ≤ c.size)) := by
  intro l
  induction l with
  | nil => intro best bs; left; exact ⟨rfl, by simp⟩
  | cons x rest ih =>
    intro best bs
    by_cases hfit : fits size alignment x
    · by_cases hlt : x.size < bs
      · rcases ih (some x) x.size with ⟨heq, hall⟩ |
          ⟨b, l₁, l₂, hres, hsplit, hfb, hbs, h1, h2⟩
        · right
          refine ⟨x, [], rest, ?_, by simp, hfit, hlt, by simp, hall⟩
          simpa [find_free_block_loop, hfit, hlt] using heq
        · right
          refine ⟨b, x :: l₁, l₂, ?_, by simp [hsplit], hfb,
            lt_trans hbs hlt, ?_, h2⟩
          · simpa [find_free_block_loop, hfit, hlt] using hres
          · intro c hc hcf
            rcases List.mem_cons.1 hc with rfl | hc'
            · exact Or.inr hbs
            · rcases h1 c hc' hcf with hge | hlt2
              · exact Or.inr (lt_of_lt_of_le hbs hge)
              · exact Or.inr hlt2
      · rcases ih best bs with ⟨heq, hall⟩ |
          ⟨b, l₁, l₂, hres, hsplit, hfb, hbs, h1, h2⟩
        · left
          refine ⟨?_, ?_⟩
          · simpa [find_free_block_loop, hfit, hlt] using heq
          · intro c hc hcf
            rcases List.mem_cons.1 hc with rfl | hc'
            · exact le_of_not_lt hlt
            · exact hall c hc' hcf
        · right
          refine ⟨b, x :: l₁, l₂, ?_, by simp [hsplit], hfb, hbs, ?_, h2⟩
          · simpa [find_free_block_loop, hfit, hlt] using hres
          · intro c hc hcf
            rcases List.mem_cons.1 hc with rfl | hc'
            · exact Or.inl (le_of_not_lt hlt)
            · exact h1 c hc' hcf
    · rcases ih best bs with ⟨heq, hall⟩ |
        ⟨b, l₁, l₂, hres, hsplit, hfb, hbs, h1, h2⟩
      · left
        refine ⟨?_, ?_⟩
        · simpa [find_free_block_loop, hfit] using heq
        · intro c hc hcf
          rcases List.mem_cons.1 hc with rfl | hc'
          · exact absurd hcf hfit
          · exact hall c hc' hcf
      · right
        refine ⟨b, x :: l₁, l₂, ?_, by simp [hsplit], hfb, hbs, ?_, h2⟩
        · simpa [find_free_block_loop, hfit] using hres
        · intro c hc hcf
          rcases List.mem_cons.1 hc with rfl | hc'
          · exact absurd hcf hfit
          · exact h1 c hc' hcf

/-- Claim C2: when some free block passes the fit test (size plus alignment
padding within the block's size), find_free_block returns a fitting block of
minimal total size, and among the fitting blocks of that size the first one
in list order: every fitting block before it in the free list is strictly
larger, every fitting block anywhere in the list is at least as large.
The well-formedness bound size < UINT32_MAX reflects the data-model invariant
that blocks lie inside the user zone (a block of size UINT32_MAX, the
sentinel initial value of best_size, cannot exist). -/
theorem find_free_block_best_fit (mm : MemoryManager) (size alignment : Nat)
    (hsize : 0 < size) (hpow : ∃ k, alignment = 2 ^ k)
    (hwf : ∀ b ∈ mm.free_blocks, b.size < UINT32_MAX)
    (hex : ∃ c ∈ mm.free_blocks, fits size alignment c) :
    ∃ b l₁ l₂, find_free_block mm size alignment = some b ∧
      fits size alignment b ∧ mm.free_blocks = l₁ ++ b :: l₂ ∧
      (∀ c ∈ l₁, fits size alignment c → b.size < c.size) ∧
      (∀ c ∈ mm.free_blocks, fits size alignment c → b.size ≤ c.size) := by
  obtain ⟨c0, hc0, hc0f⟩ := hex
  rcases find_free_block_loop_spec size alignment mm.free_blocks none UINT32_MAX with
    ⟨_, hall⟩ | ⟨b, l₁, l₂, hres, hsplit, hfb, _, h1, h2⟩
  · exact absurd (hall c0 hc0 hc0f) (not_le.2 (hwf c0 hc0))
  · have hstrict : ∀ c ∈ l₁, fits size alignment c → b.size < c.size := by
      intro c hc hcf
      have hcmem : c ∈ mm.free_blocks := by
        rw [hsplit]; exact List.mem_append.2 (Or.inl hc)
      rcases h1 c hc hcf with hge | hlt2
      · exact absurd hge (not_le.2 (hwf c hcmem))
      · exact hlt2
    refine ⟨b, l₁, l₂, hres, hfb, hsplit, hstrict, ?_⟩
    intro c hc hcf
    rw [hsplit] at hc
    rcases List.mem_append.1 hc with hc1 | hc2
    · exact le_of_lt (hstrict c hc1 hcf)
    · rcases List.mem_cons.1 hc2 with rfl | hc2'
      · exact le_refl _
      · exact h2 c hc2' hcf

/-- The 100/50/30 free-list state of the spec's best-fit example. -/
def mm_best_fit_example : MemoryManager :=
  test_mm [⟨1000, 100, MemoryType.free, 0, true⟩,
           ⟨2000, 50, MemoryType.free, 0, true⟩,
           ⟨3000, 30, MemoryType.free, 0, true⟩] []

theorem find_free_block_best_fit_witness :
    (0 < 20 ∧ (∃ k, (4 : Nat) = 2 ^ k) ∧
      (∀ b ∈ mm_best_fit_example.free_blocks, b.size < UINT32_MAX) ∧
      (∃ c ∈ mm_best_fit_example.free_blocks, fits 20 4 c)) ∧
    (∃ b l₁ l₂, find_free_block mm_best_fit_example 20 4 = some b ∧
      fits 20 4 b ∧ mm_best_fit_example.free_blocks = l₁ ++ b :: l₂ ∧
      (∀ c ∈ l₁, fits 20 4 c → b.size < c.size) ∧
      (∀ c ∈ mm_best_fit_example.free_blocks, fits 20 4 c → b.size ≤ c.size)) ∧
    find_free_block mm_best_fit_example 20 4
      = some ⟨3000, 30, MemoryType.free, 0, true⟩ :=
  ⟨⟨by decide, ⟨2, rfl⟩, by decide, by decide⟩,
   find_free_block_best_fit mm_best_fit_example 20 4 (by decide) ⟨2, rfl⟩
     (by decide) (by decide),
   by decide⟩

lemma remove_block_append (l₁ l₂ : List MemoryBlock) (b : MemoryBlock)
    (h : b ∉ l₁) : remove_block (l₁ ++ b :: l₂) b = l₁ ++ l₂ := by
  induction l₁ with
  | nil => simp [remove_block]
  | cons x xs ih =>
    have hx : x ≠ b := fun he => h (he ▸ List.mem_cons_self _ _)
    simp only [List.cons_append, remove_block, if_neg hx]
    simp [ih (fun hm => h (List.mem_cons_of_mem _ hm))]

lemma replace_block_append (l₁ l₂ : List MemoryBlock) (b nb : MemoryBlock)
    (h : b ∉ l₁) : replace_block (l₁ ++ b :: l₂) b nb = l₁ ++ nb :: l₂ := by
  induction l₁ with
  | nil => simp [replace_block]
  | cons x xs ih =>
    have hx : x ≠ b := fun he => h (he ▸ List.mem_cons_self _ _)
    simp only [List.cons_append, replace_block, if_neg hx]
    simp [ih (fun hm => h (List.mem_cons_of_mem _ hm))]

/-- Claim C8: when the winning free block (here the node at the position
l₁.length of the free list) leaves strictly more than one header's worth of
bytes after size plus padding, the allocation splits it: a new free block at
aligned_address + size of size S - size - padding takes the original's place
in the free list, and the allocated block's size is exactly size + padding;
when the leftover is at most a header's worth, no split happens, the node is
simply unlinked and the whole block (size S) is allocated. -/
theorem memory_alloc_split (mm : MemoryManager) (size alignment : Nat)
    (ty : MemoryType) (b : MemoryBlock) (l₁ l₂ : List MemoryBlock)
    (hsize : 0 < size)
    (hlist : mm.free_blocks = l₁ ++ b :: l₂) (hnot : b ∉ l₁)
    (hfind : find_free_block mm size alignment = some b) :
    (size + (align_up b.address alignment - b.address) + sizeof_memory_block
        < b.size →
      memory_alloc_aligned mm size alignment ty =
        (some (align_up b.address alignment),
         { mm with
           free_blocks := l₁ ++
             { address := align_up b.address alignment + size,
               size := b.size - size - (align_up b.address alignment - b.address),
               type := MemoryType.free, process_id := 0, is_free := true } :: l₂,
           allocated_blocks :=
             { address := align_up b.address alignment,
               size := size + (align_up b.address alignment - b.address),
               type := ty, process_id := mm.current_process, is_free := false }
               :: mm.allocated_blocks,
           allocations := mm.allocations + 1,
           available_memory := mm.available_memory - (size : Int) })) ∧
    (b.size ≤ size + (align_up b.address alignment - b.address)
        + sizeof_memory_block →
      memory_alloc_aligned mm size alignment ty =
        (some (align_up b.address alignment),
         { mm with
           free_blocks := l₁ ++ l₂,
           allocated_blocks :=
             { address := align_up b.address alignment,
               size := b.size,
               type := ty, process_id := mm.current_process, is_free := false }
               :: mm.allocated_blocks,
           allocations := mm.allocations + 1,
           available_memory := mm.available_memory - (size : Int) })) := by
  have hne : size ≠ 0 := Nat.pos_iff_ne_zero.1 hsize
  constructor
  · intro hsplit
    unfold memory_alloc_aligned
    rw [if_neg hne, hfind]
    unfold alloc_from_block
    dsimp only
    rw [if_pos hsplit, if_pos hsplit, hlist,
      replace_block_append _ _ _ _ hnot]
  · intro hns
    unfold memory_alloc_aligned
    rw [if_neg hne, hfind]
    unfold alloc_from_block
    dsimp only
    rw [if_neg (not_lt.2 hns), if_neg (not_lt.2 hns), hlist,
      remove_block_append _ _ _ hnot]

/-- A free list with one block large enough to be split by a 20-byte request. -/
def mm_split_example : MemoryManager :=
  test_mm [⟨1000, 100, MemoryType.free, 0, true⟩] []

/-- A free list with one block whose leftover after a 20-byte request is at
most one header, so it is allocated whole. -/
def mm_nosplit_example : MemoryManager :=
  test_mm [⟨1000, 40, MemoryType.free, 0, true⟩] []

def blk_split : MemoryBlock := ⟨1000, 100, MemoryType.free, 0, true⟩

def blk_nosplit : MemoryBlock := ⟨1000, 40, MemoryType.free, 0, true⟩

theorem memory_alloc_split_witness :
    (20 + (align_up blk_split.address 4 - blk_split.address) + sizeof_memory_block
        < blk_split.size ∧
      memory_alloc_aligned mm_split_example 20 4 MemoryType.user =
        (some (align_up blk_split.address 4),
         { mm_split_example with
           free_blocks := [] ++
             { address := align_up blk_split.address 4 + 20,
               size := blk_split.size - 20 - (align_up blk_split.address 4 - blk_split.address),
               type := MemoryType.free, process_id := 0, is_free := true } :: [],
           allocated_blocks :=
             { address := align_up blk_split.address 4,
               size := 20 + (align_up blk_split.address 4 - blk_split.address),
               type := MemoryType.user,
               process_id := mm_split_example.current_process, is_free := false }
               :: mm_split_example.allocated_blocks,
           allocations := mm_split_example.allocations + 1,
           available_memory := mm_split_example.available_memory - (20 : Int) })) ∧
    (blk_nosplit.size ≤ 20 + (align_up blk_nosplit.address 4 - blk_nosplit.address)
        + sizeof_memory_block ∧
      memory_alloc_aligned mm_nosplit_example 20 4 MemoryType.user =
        (some (align_up blk_nosplit.address 4),
         { mm_nosplit_example with
           free_blocks := [] ++ [],
           allocated_blocks :=
             { address := align_up blk_nosplit.address 4,
               size := blk_nosplit.size,
               type := MemoryType.user,
               process_id := mm_nosplit_example.current_process, is_free := false }
               :: mm_nosplit_example.allocated_blocks,
           allocations := mm_nosplit_example.allocations + 1,
           available_memory := mm_nosplit_example.available_memory - (20 : Int) })) :=
  ⟨⟨by decide,
    (memory_alloc_split mm_split_example 20 4 MemoryType.user blk_split [] []
      (by decide) rfl (by simp) (by decide)).1 (by decide)⟩,
   ⟨by decide,
    (memory_alloc_split mm_nosplit_example 20 4 MemoryType.user blk_nosplit [] []
      (by decide) rfl (by simp) (by decide)).2 (by decide)⟩⟩

/-- No consecutive pair of the list satisfies the merge condition, so the
coalescing cursor walks these nodes one at a time without skipping. -/
def chain_ok : List MemoryBlock → Prop
  | u :: v :: rest =>
    ¬(v.is_free = true ∧ u.address + u.size = v.address) ∧ chain_ok (v :: rest)
  | _ => True

lemma merge_adjacent (l₁ : List MemoryBlock) (b c : MemoryBlock)
    (l₂ : List MemoryBlock) (hpre : chain_ok (l₁ ++ [b]))
    (hc : c.is_free = true) (haddr : b.address + b.size = c.address) :
    merge_free_blocks (l₁ ++ b :: c :: l₂)
      = l₁ ++ { b with size := b.size + c.size } :: merge_free_blocks l₂ := by
  induction l₁ with
  | nil =>
    simp only [List.nil_append]
    rw [merge_free_blocks, if_pos ⟨hc, haddr⟩]
  | cons u l₁' ih =>
    cases l₁' with
    | nil =>
      simp only [chain_ok, List.nil_append, List.cons_append] at hpre
      obtain ⟨hnm, -⟩ := hpre
      simp only [List.cons_append, List.nil_append]
      rw [merge_free_blocks, if_neg hnm, merge_free_blocks, if_pos ⟨hc, haddr⟩]
    | cons v l₁'' =>
      simp only [chain_ok, List.cons_append] at hpre
      obtain ⟨hnm, hrest⟩ := hpre
      have hrest' : chain_ok ((v :: l₁'') ++ [b]) := by
        simpa [chain_ok, List.cons_append] using hrest
      simp only [List.cons_append]
      rw [merge_free_blocks, if_neg hnm]
      have := ih hrest'
      simp only [List.cons_append] at this
      rw [this]

lemma merge_mem_structure : (l : List MemoryBlock) → ∀ x ∈ merge_free_blocks l,
    x ∈ l ∨ ∃ u v l₁ l₂, l = l₁ ++ u :: v :: l₂ ∧ v.is_free = true ∧
      u.address + u.size = v.address ∧ x = { u with size := u.size + v.size }
  | [] => by intro x hx; simp [merge_free_blocks] at hx
  | [b] => by
    intro x hx
    simp only [merge_free_blocks, List.mem_singleton] at hx
    exact Or.inl (by simp [hx])
  | b :: c :: rest => by
    intro x hx
    rw [merge_free_blocks] at hx
    by_cases hm : c.is_free = true ∧ b.address + b.size = c.address
    · rw [if_pos hm] at hx
      rcases List.mem_cons.1 hx with rfl | hx'
      · exact Or.inr ⟨b, c, [], rest, by simp, hm.1, hm.2, rfl⟩
      · rcases merge_mem_structure rest x hx' with h | ⟨u, v, l₁, l₂, hsp, h1, h2, h3⟩
        · exact Or.inl (by simp [h])
        · exact Or.inr ⟨u, v, b :: c :: l₁, l₂, by simp [hsp], h1, h2, h3⟩
    · rw [if_neg hm] at hx
      rcases List.mem_cons.1 hx with rfl | hx'
      · exact Or.inl (List.mem_cons_self _ _)
      · rcases merge_mem_structure (c :: rest) x hx' with h | ⟨u, v, l₁, l₂, hsp, h1, h2, h3⟩
        · exact Or.inl (List.mem_cons_of_mem _ h)
        · exact Or.inr ⟨u, v, b :: l₁, l₂, by simp [hsp], h1, h2, h3⟩

/-- Claim C5 (amended): the coalescing pass merges a list-adjacent,
address-contiguous pair of free blocks into one block of the summed size
provided the cursor reaches the first block of the pair, i.e. no consecutive
pair in the strict prefix (up to and including that block) itself merges; and
every block the pass produces is either an input block or the merge of two
blocks that were immediately list-adjacent in the input, so address-adjacent
blocks that are not list-adjacent are never merged with each other. -/
theorem merge_free_blocks_spec :
    (∀ (l₁ : List MemoryBlock) (b c : MemoryBlock) (l₂ : List MemoryBlock),
      chain_ok (l₁ ++ [b]) → c.is_free = true → b.address + b.size = c.address →
      merge_free_blocks (l₁ ++ b :: c :: l₂)
        = l₁ ++ { b with size := b.size + c.size } :: merge_free_blocks l₂) ∧
    (∀ (l : List MemoryBlock), ∀ x ∈ merge_free_blocks l,
      x ∈ l ∨ ∃ u v l₁ l₂, l = l₁ ++ u :: v :: l₂ ∧ v.is_free = true ∧
        u.address + u.size = v.address ∧ x = { u with size := u.size + v.size }) :=
  ⟨merge_adjacent, merge_mem_structure⟩

theorem merge_free_blocks_spec_witness :
    (chain_ok ([] ++ [(⟨100, 50, MemoryType.free, 0, true⟩ : MemoryBlock)]) ∧
      merge_free_blocks
          ([] ++ (⟨100, 50, MemoryType.free, 0, true⟩ : MemoryBlock)
            :: (⟨150, 30, MemoryType.free, 0, true⟩ : MemoryBlock) :: [])
        = [] ++ ({ (⟨100, 50, MemoryType.free, 0, true⟩ : MemoryBlock) with
            size := 50 + 30 }) :: merge_free_blocks []) ∧
    ((⟨100, 80, MemoryType.free, 0, true⟩ : MemoryBlock)
        ∈ [(⟨100, 50, MemoryType.free, 0, true⟩ : MemoryBlock),
           ⟨150, 30, MemoryType.free, 0, true⟩] ∨
      ∃ u v l₁ l₂,
        [(⟨100, 50, MemoryType.free, 0, true⟩ : MemoryBlock),
         ⟨150, 30, MemoryType.free, 0, true⟩] = l₁ ++ u :: v :: l₂ ∧
        v.is_free = true ∧ u.address + u.size = v.address ∧
        (⟨100, 80, MemoryType.free, 0, true⟩ : MemoryBlock)
          = { u with size := u.size + v.size }) :=
  ⟨⟨trivial,
    merge_free_blocks_spec.1 [] ⟨100, 50, MemoryType.free, 0, true⟩
      ⟨150, 30, MemoryType.free, 0, true⟩ [] trivial rfl rfl⟩,
   merge_free_blocks_spec.2
     [⟨100, 50, MemoryType.free, 0, true⟩, ⟨150, 30, MemoryType.free, 0, true⟩]
     ⟨100, 80, MemoryType.free, 0, true⟩ (by decide)⟩

/-- A state with one allocated 50-byte block at address 100 and two free
blocks 150/30 and 180/20 that are list-adjacent and address-contiguous. -/
def mm_merge_skip : MemoryManager :=
  test_mm [⟨150, 30, MemoryType.free, 0, true⟩, ⟨180, 20, MemoryType.free, 0, true⟩]
          [⟨100, 50, MemoryType.user, 0, false⟩]

/-- Claim C5 counterexample: releasing address 100 pushes a 50-byte free
block at the head of the free list [100/50, 150/30, 180/20]; the 30- and
20-byte blocks are list-adjacent free blocks with contiguous address ranges
(150 + 30 = 180), yet the coalescing pass of that release merges the head
pair, skips over the following pair, and produces no block of size 30 + 20:
the pass does not merge every list-adjacent contiguous pair. -/
theorem merge_free_blocks_skip_counterexample :
    (memory_free mm_merge_skip 100).2.free_blocks
      = [⟨100, 80, MemoryType.free, 0, true⟩, ⟨180, 20, MemoryType.free, 0, true⟩] ∧
    ∀ d ∈ (memory_free mm_merge_skip 100).2.free_blocks, d.size ≠ 30 + 20 := by
  decide

lemma defrag_walk_cursor (l : List MemoryBlock) :
    ∀ c, (∀ b ∈ l, b.is_free = false) → (defrag_walk c l).2 = c + sum_sizes l := by
  induction l with
  | nil => intro c _; simp [defrag_walk, sum_sizes]
  | cons b rest ih =>
    intro c h
    have hb : b.is_free = false := h b (List.mem_cons_self _ _)
    rw [defrag_walk, if_neg (by simp [hb])]
    dsimp only
    rw [ih (c + b.size) (fun x hx => h x (List.mem_cons_of_mem _ hx))]
    simp [sum_sizes, Nat.add_assoc]

lemma defrag_walk_get (l : List MemoryBlock) :
    ∀ c i, (∀ b ∈ l, b.is_free = false) →
      (defrag_walk c l).1.get? i
        = (l.get? i).map
            (fun b => { b with address := c + sum_sizes (l.take i) }) := by
  induction l with
  | nil => intro c i _; simp [defrag_walk]
  | cons b rest ih =>
    intro c i h
    have hb : b.is_free = false := h b (List.mem_cons_self _ _)
    rw [defrag_walk, if_neg (by simp [hb])]
    dsimp only
    cases i with
    | zero => simp [sum_sizes]
    | succ i' =>
      simp only [List.get?_cons_succ, List.take_succ_cons]
      rw [ih (c + b.size) i' (fun x hx => h x (List.mem_cons_of_mem _ hx))]
      simp [sum_sizes, Nat.add_assoc]

/-- Claim C3 (amended): after one defragmentation pass, the i-th block of the
allocated list keeps all its fields except that its address becomes
user_memory_start plus the total size of the blocks before it in the list
(the live blocks form a contiguous sequence from the user-zone start in list
order); the head of the free list, if any, is rewritten to start at the end
of that sequence with size the remaining user-zone space, while every other
free-list node is left untouched, so exactly one free block remains only when
the free list had exactly one node; fragmentation_count is incremented. -/
theorem memory_defragment_spec (mm : MemoryManager)
    (h : ∀ b ∈ mm.allocated_blocks, b.is_free = false) :
    (∀ i, (memory_defragment mm).allocated_blocks.get? i
        = (mm.allocated_blocks.get? i).map
            (fun b => { b with address := (mm.user_memory_start
                + sum_sizes (mm.allocated_blocks.take i)) })) ∧
    ((memory_defragment mm).free_blocks =
      match mm.free_blocks with
      | [] => []
      | f :: rest =>
        { f with
          address := mm.user_memory_start + sum_sizes mm.allocated_blocks,
          size := (mm.user_memory_end
            - (mm.user_memory_start + sum_sizes mm.allocated_blocks)) } :: rest) ∧
    (memory_defragment mm).fragmentation_count = mm.fragmentation_count + 1 := by
  refine ⟨?_, ?_, rfl⟩
  · intro i
    unfold memory_defragment
    dsimp only
    exact defrag_walk_get _ _ i h
  · unfold memory_defragment
    dsimp only
    rw [defrag_walk_cursor _ _ h]

/-- A state with a non-empty allocated list and a two-node free list. -/
def mm_defrag_two_free : MemoryManager :=
  test_mm [⟨500, 100, MemoryType.free, 0, true⟩, ⟨700, 50, MemoryType.free, 0, true⟩]
          [⟨300, 40, MemoryType.user, 0, false⟩]

/-- Claim C3 counterexample: a manager state with a non-empty allocated list
and two free-list nodes; after the defragmentation pass the free list still
has two nodes (only the head was rewritten, the second node survives), so it
is not true that exactly one free block remains. -/
theorem memory_defragment_counterexample :
    mm_defrag_two_free.allocated_blocks ≠ [] ∧
    (memory_defragment mm_defrag_two_free).free_blocks.length = 2 := by decide

theorem memory_defragment_spec_witness :
    (∀ b ∈ mm_defrag_two_free.allocated_blocks, b.is_free = false) ∧
    ((∀ i, (memory_defragment mm_defrag_two_free).allocated_blocks.get? i
        = (mm_defrag_two_free.allocated_blocks.get? i).map
            (fun b => { b with address := (mm_defrag_two_free.user_memory_start
                + sum_sizes (mm_defrag_two_free.allocated_blocks.take i)) })) ∧
      ((memory_defragment mm_defrag_two_free).free_blocks =
        match mm_defrag_two_free.free_blocks with
        | [] => []
        | f :: rest =>
          { f with
            address := (mm_defrag_two_free.user_memory_start
              + sum_sizes mm_defrag_two_free.allocated_blocks),
            size := (mm_defrag_two_free.user_memory_end
              - (mm_defrag_two_free.user_memory_start
                + sum_sizes mm_defrag_two_free.allocated_blocks)) } :: rest) ∧
      (memory_defragment mm_defrag_two_free).fragmentation_count
        = mm_defrag_two_free.fragmentation_count + 1) :=
  ⟨by decide, memory_defragment_spec mm_defrag_two_free (by decide)⟩

/-- Claim C1 counterexample: at the state memory_init produces (with main's
parameters, 128 MB total and kernel at 0x100000) the allocated list is empty
yet available_memory is total_memory = 134217728 while the user-zone capacity
user_memory_end - user_memory_start is 124780544, so available_memory does
not equal user-zone capacity minus the allocated sizes. -/
theorem available_memory_user_zone_counterexample :
    (memory_init 134217728 1048576).allocated_blocks = [] ∧
    (memory_init 134217728 1048576).available_memory
      ≠ (((memory_init 134217728 1048576).user_memory_end
          - (memory_init 134217728 1048576).user_memory_start : Nat) : Int)
        - (sum_sizes (memory_init 134217728 1048576).allocated_blocks : Int) := by
  decide

/-- The block memory_alloc_aligned commits to: the first search's result, or
the retry's result after one defragmentation. -/
def chosen_block (mm : MemoryManager) (size alignment : Nat) :
    Option MemoryBlock :=
  match find_free_block mm size alignment with
  | some b => some b
  | none => find_free_block (memory_defragment mm) size alignment

/-- An allocation request is exact on a state when the block it commits to
needs zero alignment padding and is split, so the allocated block's recorded
size equals the requested size (failing or zero-size requests are vacuously
exact: they do not change available_memory or the allocated list). -/
def exact_alloc (mm : MemoryManager) (size alignment : Nat) : Bool :=
  if size = 0 then true
  else
    match chosen_block mm size alignment with
    | none => true
    | some b =>
      decide (align_up b.address alignment - b.address = 0) &&
      decide (size + (align_up b.address alignment - b.address)
        + sizeof_memory_block < b.size)

/-- The public allocator operations whose effect on available_memory the
invariant claim ranges over. -/
inductive MMOp where
  | alloc (size alignment : Nat) (ty : MemoryType)
  | release (addr : Nat)
  | palloc (process_id size : Nat)
  | pdestroy (process_id : Nat)

def run_op (mm : MemoryManager) : MMOp → MemoryManager
  | MMOp.alloc size alignment ty => (memory_alloc_aligned mm size alignment ty).2
  | MMOp.release addr => (memory_free mm addr).2
  | MMOp.palloc pid size => (process_alloc mm pid size).2
  | MMOp.pdestroy pid => (process_memory_destroy mm pid).2

def run_ops (mm : MemoryManager) : List MMOp → MemoryManager
  | [] => mm
  | op :: rest => run_ops (run_op mm op) rest

def exact_op (mm : MemoryManager) : MMOp → Bool
  | MMOp.alloc size alignment _ => exact_alloc mm size alignment
  | MMOp.release _ => true
  | MMOp.palloc pid size =>
    if pid < MAX_PROCESSES ∧
        (mm.processes.getD pid zero_process).is_active = true then
      exact_alloc { mm with current_process := pid } size 4
    else true
  | MMOp.pdestroy _ => true

def ops_exact (mm : MemoryManager) : List MMOp → Bool
  | [] => true
  | op :: rest => exact_op mm op && ops_exact (run_op mm op) rest

/-- available_memory equals total_memory minus the summed recorded sizes of
the allocated list. -/
def mm_invariant (mm : MemoryManager) : Prop :=
  mm.available_memory
    = (mm.total_memory : Int) - (sum_sizes mm.allocated_blocks : Int)

lemma sum_sizes_cons (b : MemoryBlock) (l : List MemoryBlock) :
    sum_sizes (b :: l) = b.size + sum_sizes l := by
  simp [sum_sizes]

lemma remove_by_address_sum (addr : Nat) (b : MemoryBlock) :
    ∀ (l l' : List MemoryBlock), remove_by_address l addr = (some b, l') →
      sum_sizes l = b.size + sum_sizes l' := by
  intro l
  induction l with
  | nil => intro l' h; simp [remove_by_address] at h
  | cons x rest ih =>
    intro l' h
    rw [remove_by_address] at h
    by_cases hx : x.address = addr
    · rw [if_pos hx] at h
      injection h with h1 h2
      injection h1 with h1
      subst h1; subst h2
      exact sum_sizes_cons _ _
    · rw [if_neg hx] at h
      dsimp only at h
      injection h with h1 h2
      have hr := ih (remove_by_address rest addr).2 (Prod.ext h1 rfl)
      subst h2
      rw [sum_sizes_cons, sum_sizes_cons, hr]
      omega

lemma memory_free_invariant (mm : MemoryManager) (addr : Nat)
    (h : mm_invariant mm) : mm_invariant (memory_free mm addr).2 := by
  unfold memory_free
  by_cases h0 : addr = 0
  · simpa [h0] using h
  · rw [if_neg h0]
    rcases hr : remove_by_address mm.allocated_blocks addr with ⟨found, rest⟩
    cases found with
    | none => simpa using h
    | some b =>
      have hsum := remove_by_address_sum addr b _ _ hr
      unfold mm_invariant at h ⊢
      dsimp only
      omega

lemma defrag_walk_sum (l : List MemoryBlock) :
    ∀ c, sum_sizes (defrag_walk c l).1 = sum_sizes l := by
  induction l with
  | nil => intro c; simp [defrag_walk]
  | cons b rest ih =>
    intro c
    rw [defrag_walk]
    by_cases hb : b.is_free = true
    · rw [if_pos hb]; dsimp only; rw [sum_sizes_cons, sum_sizes_cons, ih]
    · rw [if_neg hb]; dsimp only; rw [sum_sizes_cons, sum_sizes_cons, ih]

lemma memory_defragment_invariant (mm : MemoryManager) (h : mm_invariant mm) :
    mm_invariant (memory_defragment mm) := by
  unfold mm_invariant at h ⊢
  unfold memory_defragment
  dsimp only
  rw [defrag_walk_sum]
  exact h

lemma alloc_from_block_invariant (mm : MemoryManager) (size alignment : Nat)
    (ty : MemoryType) (b : MemoryBlock)
    (hpad : align_up b.address alignment - b.address = 0)
    (hsplit : size + (align_up b.address alignment - b.address)
      + sizeof_memory_block < b.size)
    (h : mm_invariant mm) :
    mm_invariant (alloc_from_block mm size alignment ty b).2 := by
  unfold mm_invariant at h ⊢
  unfold alloc_from_block
  dsimp only
  rw [sum_sizes_cons]
  dsimp only
  rw [if_pos hsplit, hpad]
  push_cast
  omega

lemma memory_alloc_aligned_invariant (mm : MemoryManager)
    (size alignment : Nat) (ty : MemoryType)
    (hex : exact_alloc mm size alignment = true) (h : mm_invariant mm) :
    mm_invariant (memory_alloc_aligned mm size alignment ty).2 := by
  unfold memory_alloc_aligned
  by_cases h0 : size = 0
  · simpa [h0] using h
  · rw [if_neg h0]
    unfold exact_alloc at hex
    rw [if_neg h0] at hex
    unfold chosen_block at hex
    rcases hf : find_free_block mm size alignment with _ | b
    · rw [hf] at hex
      dsimp only at hex ⊢
      rcases hf2 : find_free_block (memory_defragment mm) size alignment with _ | b2
      · dsimp only
        exact memory_defragment_invariant mm h
      · rw [hf2] at hex
        dsimp only at hex ⊢
        simp only [Bool.and_eq_true, decide_eq_true_eq] at hex
        exact alloc_from_block_invariant _ _ _ _ _ hex.1 hex.2
          (memory_defragment_invariant mm h)
    · rw [hf] at hex
      dsimp only at hex ⊢
      simp only [Bool.and_eq_true, decide_eq_true_eq] at hex
      exact alloc_from_block_invariant _ _ _ _ _ hex.1 hex.2 h

lemma mm_invariant_of_fields (mm mm' : MemoryManager)
    (ha : mm'.available_memory = mm.available_memory)
    (ht : mm'.total_memory = mm.total_memory)
    (hb : mm'.allocated_blocks = mm.allocated_blocks)
    (h : mm_invariant mm) : mm_invariant mm' := by
  unfold mm_invariant at h ⊢
  rw [ha, ht, hb]
  exact h

lemma process_alloc_invariant (mm : MemoryManager) (pid size : Nat)
    (hex : exact_op mm (MMOp.palloc pid size) = true) (h : mm_invariant mm) :
    mm_invariant (process_alloc mm pid size).2 := by
  unfold process_alloc
  by_cases hp : MAX_PROCESSES ≤ pid
  · simpa [hp] using h
  · rw [if_neg hp]
    by_cases ha : (mm.processes.getD pid zero_process).is_active = false
    · rw [if_pos ha]; exact h
    · rw [if_neg ha]
      dsimp only
      have hact : (mm.processes.getD pid zero_process).is_active = true :=
        eq_true_of_ne_false ha
      have hex' : exact_alloc { mm with current_process := pid } size 4 = true := by
        unfold exact_op at hex
        dsimp only at hex
        rwa [if_pos ⟨Nat.lt_of_not_le hp, hact⟩] at hex
      have h1 : mm_invariant { mm with current_process := pid } := h
      have h2 := memory_alloc_aligned_invariant
        { mm with current_process := pid } size 4 MemoryType.user hex' h1
      rcases hr : (memory_alloc { mm with current_process := pid } size
          MemoryType.user).1 with _ | a
      · dsimp only
        exact mm_invariant_of_fields _ _ rfl rfl rfl h2
      · dsimp only
        exact mm_invariant_of_fields _ _ rfl rfl rfl h2

lemma destroy_loop_invariant (pid : Nat) :
    ∀ (todo : List MemoryBlock) (mm : MemoryManager),
      mm_invariant mm → mm_invariant (destroy_loop pid mm todo) := by
  intro todo
  induction todo with
  | nil => intro mm h; exact h
  | cons b rest ih =>
    intro mm h
    rw [destroy_loop]
    refine ih _ ?_
    by_cases hb : b.process_id = pid
    · rw [if_pos hb]; exact memory_free_invariant _ _ h
    · rw [if_neg hb]; exact h

lemma process_memory_destroy_invariant (mm : MemoryManager) (pid : Nat)
    (h : mm_invariant mm) : mm_invariant (process_memory_destroy mm pid).2 := by
  unfold process_memory_destroy
  by_cases hp : MAX_PROCESSES ≤ pid
  · simpa [hp] using h
  · rw [if_neg hp]
    by_cases ha : (mm.processes.getD pid zero_process).is_active = false
    · rw [if_pos ha]; exact h
    · rw [if_neg ha]
      dsimp only
      have h1 := destroy_loop_invariant pid mm.allocated_blocks mm h
      unfold mm_invariant at h1 ⊢
      simpa using h1

lemma run_ops_invariant :
    ∀ (ops : List MMOp) (mm : MemoryManager),
      mm_invariant mm → ops_exact mm ops = true →
      mm_invariant (run_ops mm ops) := by
  intro ops
  induction ops with
  | nil => intro mm h _; exact h
  | cons op rest ih =>
    intro mm h hex
    rw [ops_exact, Bool.and_eq_true] at hex
    rw [run_ops]
    refine ih _ ?_ hex.2
    cases op with
    | alloc size alignment ty =>
      exact memory_alloc_aligned_invariant mm size alignment ty hex.1 h
    | release addr => exact memory_free_invariant mm addr h
    | palloc pid size => exact process_alloc_invariant mm pid size hex.1 h
    | pdestroy pid => exact process_memory_destroy_invariant mm pid h

/-- Claim C1 (amended): available_memory is initialised to total_memory (not
to the user-zone capacity), and at every state reached from memory_init by a
sequence of allocate/release/process operations in which every allocation is
exact (zero alignment padding and a split, so the committed block's recorded
size equals the requested size), available_memory equals total_memory minus
the sum of the sizes of the blocks in the allocated list; releases, process
destruction and failing or defragmenting requests preserve the equation
unconditionally. -/
theorem available_memory_invariant (total_memory kernel_start : Nat)
    (ops : List MMOp)
    (h : ops_exact (memory_init total_memory kernel_start) ops = true) :
    mm_invariant (run_ops (memory_init total_memory kernel_start) ops) := by
  refine run_ops_invariant ops _ ?_ h
  unfold mm_invariant memory_init
  simp [sum_sizes]

theorem available_memory_invariant_witness :
    ops_exact (memory_init 8388700 0) [MMOp.alloc 20 4 MemoryType.user] = true ∧
    mm_invariant (run_ops (memory_init 8388700 0)
      [MMOp.alloc 20 4 MemoryType.user]) :=
  ⟨by decide, available_memory_invariant 8388700 0 _ (by decide)⟩

lemma remove_block_sublist (l : List MemoryBlock) (b : MemoryBlock) :
    (remove_block l b).Sublist l := by
  induction l with
  | nil => simp [remove_block]
  | cons x rest ih =>
    rw [remove_block]
    by_cases hx : x = b
    · rw [if_pos hx]; exact List.sublist_cons_self x rest
    · rw [if_neg hx]; exact List.Sublist.cons₂ x ih

lemma sublist_remove_block (b : MemoryBlock) :
    ∀ (rest l : List MemoryBlock), (b :: rest).Sublist l →
      rest.Sublist (remove_block l b) := by
  intro rest l
  induction l generalizing rest with
  | nil => intro h; exact absurd h (by simp)
  | cons x l' ih =>
    intro h
    rw [remove_block]
    by_cases hx : x = b
    · rw [if_pos hx]
      subst hx
      cases h with
      | cons _ h' => exact (List.sublist_cons_self x rest).trans h'
      | cons₂ _ h' => exact h'
    · rw [if_neg hx]
      cases h with
      | cons _ h' => exact List.Sublist.cons x (ih rest h')
      | cons₂ _ h' => exact absurd rfl hx

lemma rba_eq_remove :
    ∀ (l : List MemoryBlock) (b : MemoryBlock), b ∈ l →
      (l.map MemoryBlock.address).Nodup →
      remove_by_address l b.address = (some b, remove_block l b) := by
  intro l
  induction l with
  | nil => intro b h _; exact absurd h (by simp)
  | cons x rest ih =>
    intro b hmem hnd
    rw [remove_by_address, remove_block]
    rcases List.mem_cons.1 hmem with rfl | hmem'
    · rw [if_pos rfl, if_pos rfl]
    · rw [List.map_cons, List.nodup_cons] at hnd
      have hne_addr : ¬x.address = b.address := by
        intro he
        exact hnd.1 (he ▸ List.mem_map.2 ⟨b, hmem', rfl⟩)
      have hne : ¬x = b := fun he => hne_addr (he ▸ rfl)
      rw [if_neg hne_addr, if_neg hne]
      dsimp only
      rw [ih b hmem' hnd.2]

lemma memory_free_found (mm : MemoryManager) (b : MemoryBlock)
    (hmem : b ∈ mm.allocated_blocks)
    (hnd : (mm.allocated_blocks.map MemoryBlock.address).Nodup)
    (h0 : b.address ≠ 0) :
    (memory_free mm b.address).2.allocated_blocks
        = remove_block mm.allocated_blocks b ∧
    (memory_free mm b.address).2.available_memory
        = mm.available_memory + (b.size : Int) ∧
    (memory_free mm b.address).2.processes = mm.processes := by
  unfold memory_free
  rw [if_neg h0, rba_eq_remove mm.allocated_blocks b hmem hnd]
  exact ⟨rfl, rfl, rfl⟩

/-- Repeated unlinking: remove from l the first occurrence of each block of
xs in turn (the successive memory_free calls of the destroy loop). -/
def remove_blocks (l : List MemoryBlock) (xs : List MemoryBlock) :
    List MemoryBlock :=
  xs.foldl remove_block l

lemma remove_blocks_cons (l : List MemoryBlock) (b : MemoryBlock)
    (xs : List MemoryBlock) :
    remove_blocks l (b :: xs) = remove_blocks (remove_block l b) xs := rfl

lemma remove_blocks_cons_of_ne (b : MemoryBlock) :
    ∀ (xs : List MemoryBlock), (∀ x ∈ xs, x ≠ b) →
      ∀ t, remove_blocks (b :: t) xs = b :: remove_blocks t xs := by
  intro xs
  induction xs with
  | nil => intro _ t; rfl
  | cons y ys ih =>
    intro h t
    have hyb : ¬b = y := fun he => h y (List.mem_cons_self _ _) he.symm
    rw [remove_blocks_cons, remove_block, if_neg hyb, remove_blocks_cons]
    exact ih (fun x hx => h x (List.mem_cons_of_mem _ hx)) (remove_block t y)

lemma remove_blocks_filter (p : MemoryBlock → Bool) :
    ∀ (l : List MemoryBlock),
      remove_blocks l (l.filter p) = l.filter (fun x => !(p x)) := by
  intro l
  induction l with
  | nil => rfl
  | cons x t ih =>
    by_cases hx : p x = true
    · rw [List.filter_cons, if_pos hx, remove_blocks_cons, remove_block,
        if_pos rfl, ih, List.filter_cons]
      simp [hx]
    · have hx' : p x = false := Bool.eq_false_iff.2 hx
      have hne : ∀ y ∈ t.filter p, y ≠ x := by
        intro y hy he
        rw [he] at hy
        exact hx (List.of_mem_filter hy)
      rw [List.filter_cons, if_neg (by simp [hx']),
        remove_blocks_cons_of_ne x _ hne t, ih, List.filter_cons]
      simp [hx']

lemma destroy_loop_spec (pid : Nat) :
    ∀ (todo : List MemoryBlock) (mm : MemoryManager),
      todo.Sublist mm.allocated_blocks →
      (mm.allocated_blocks.map MemoryBlock.address).Nodup →
      (∀ b ∈ mm.allocated_blocks, b.address ≠ 0) →
      (destroy_loop pid mm todo).allocated_blocks
          = remove_blocks mm.allocated_blocks
              (todo.filter (fun b => b.process_id == pid)) ∧
      (destroy_loop pid mm todo).available_memory
          = mm.available_memory
            + (sum_sizes (todo.filter (fun b => b.process_id == pid)) : Int) ∧
      (destroy_loop pid mm todo).processes = mm.processes := by
  intro todo
  induction todo with
  | nil =>
    intro mm _ _ _
    refine ⟨rfl, ?_, rfl⟩
    simp [destroy_loop, sum_sizes]
  | cons b rest ih =>
    intro mm hsub hnd h0
    rw [destroy_loop]
    by_cases hb : b.process_id = pid
    · rw [if_pos hb]
      have hmem : b ∈ mm.allocated_blocks :=
        hsub.subset (List.mem_cons_self _ _)
      obtain ⟨hA, hV, hP⟩ := memory_free_found mm b hmem hnd (h0 b hmem)
      have hsub' : rest.Sublist (memory_free mm b.address).2.allocated_blocks := by
        rw [hA]; exact sublist_remove_block b rest mm.allocated_blocks hsub
      have hnd' : ((memory_free mm b.address).2.allocated_blocks.map
          MemoryBlock.address).Nodup := by
        rw [hA]
        exact List.Nodup.sublist ((remove_block_sublist _ _).map _) hnd
      have h0' : ∀ x ∈ (memory_free mm b.address).2.allocated_blocks,
          x.address ≠ 0 := by
        rw [hA]
        exact fun x hx => h0 x ((remove_block_sublist _ _).subset hx)
      obtain ⟨iA, iV, iP⟩ := ih _ hsub' hnd' h0'
      have hfil : (b :: rest).filter (fun b => b.process_id == pid)
          = b :: rest.filter (fun b => b.process_id == pid) := by
        simp [List.filter_cons, hb]
      refine ⟨?_, ?_, ?_⟩
      · rw [iA, hA, hfil, remove_blocks_cons]
      · rw [iV, hV, hfil, sum_sizes_cons]
        push_cast
        ring
      · rw [iP, hP]
    · rw [if_neg hb]
      have hsub' : rest.Sublist mm.allocated_blocks :=
        (List.sublist_cons_self b rest).trans hsub
      obtain ⟨iA, iV, iP⟩ := ih _ hsub' hnd h0
      have hfil : (b :: rest).filter (fun b => b.process_id == pid)
          = rest.filter (fun b => b.process_id == pid) := by
        simp [List.filter_cons, hb]
      rw [hfil]
      exact ⟨iA, iV, iP⟩

/-- Claim C4 (amended): with pid in range and active, process_memory_destroy
returns 0, removes from the allocated list exactly the blocks whose owner tag
equals pid (well-formedness: allocated blocks have distinct non-null
addresses), and raises available_memory by the total recorded size of those
blocks.  Since process_alloc decrements available_memory by only the
requested size while a block's recorded size may include alignment padding or
an unsplit remainder, available_memory is restored to its pre-allocation
value exactly when every allocation was exact (recorded size = requested
size); otherwise it ends up above the original value by the accumulated
slack. -/
theorem process_memory_destroy_spec (mm : MemoryManager) (pid : Nat)
    (hp : pid < MAX_PROCESSES)
    (hact : (mm.processes.getD pid zero_process).is_active = true)
    (hnd : (mm.allocated_blocks.map MemoryBlock.address).Nodup)
    (h0 : ∀ b ∈ mm.allocated_blocks, b.address ≠ 0) :
    (process_memory_destroy mm pid).1 = 0 ∧
    (process_memory_destroy mm pid).2.allocated_blocks
        = mm.allocated_blocks.filter (fun b => !(b.process_id == pid)) ∧
    (process_memory_destroy mm pid).2.available_memory
        = mm.available_memory
          + (sum_sizes (mm.allocated_blocks.filter
              (fun b => b.process_id == pid)) : Int) := by
  unfold process_memory_destroy
  rw [if_neg (not_le.2 hp), if_neg (by rw [hact]; simp)]
  obtain ⟨iA, iV, iP⟩ := destroy_loop_spec pid mm.allocated_blocks mm
    (List.Sublist.refl _) hnd h0
  dsimp only
  refine ⟨rfl, ?_, ?_⟩
  · rw [iA, remove_blocks_filter]
  · rw [iV]

/-- A state with process 5 active and one 40-byte free block at an aligned
address: a 30-byte request allocates the whole block (the 10-byte leftover is
below the split threshold). -/
def mm_slack : MemoryManager :=
  { (test_mm [⟨9000000, 40, MemoryType.free, 0, true⟩] []) with
    processes := (List.replicate MAX_PROCESSES zero_process).set 5
      ({ zero_process with process_id := 5, is_active := true }) }

/-- Claim C4 counterexample: process 5 successfully allocates 30 bytes; the
chosen 40-byte free block is not split (leftover 10 is at most one header),
so the allocated block records size 40 while available_memory drops by only
30; destroy_process(5) then adds the recorded 40 back, leaving
available_memory 10 above its value before the allocation - the round trip on
the counter fails. -/
theorem process_destroy_no_round_trip_counterexample :
    (process_alloc mm_slack 5 30).1.isSome = true ∧
    (process_memory_destroy (process_alloc mm_slack 5 30).2 5).2.available_memory
      ≠ mm_slack.available_memory := by decide

/-- A state with two allocated blocks, one owned by process 5, one by
process 7, and process 5 active. -/
def mm_destroy_example : MemoryManager :=
  { (test_mm [] [⟨1000, 30, MemoryType.user, 5, false⟩,
                 ⟨2000, 20, MemoryType.user, 7, false⟩]) with
    processes := (List.replicate MAX_PROCESSES zero_process).set 5
      ({ zero_process with process_id := 5, is_active := true }) }

theorem process_memory_destroy_spec_witness :
    (5 < MAX_PROCESSES ∧
      (mm_destroy_example.processes.getD 5 zero_process).is_active = true ∧
      (mm_destroy_example.allocated_blocks.map MemoryBlock.address).Nodup ∧
      (∀ b ∈ mm_destroy_example.allocated_blocks, b.address ≠ 0)) ∧
    ((process_memory_destroy mm_destroy_example 5).1 = 0 ∧
      (process_memory_destroy mm_destroy_example 5).2.allocated_blocks
        = mm_destroy_example.allocated_blocks.filter
            (fun b => !(b.process_id == 5)) ∧
      (process_memory_destroy mm_destroy_example 5).2.available_memory
        = mm_destroy_example.available_memory
          + (sum_sizes (mm_destroy_example.allocated_blocks.filter
              (fun b => b.process_id == 5)) : Int)) :=
  ⟨⟨by decide, by decide, by decide, by decide⟩,
   process_memory_destroy_spec mm_destroy_example 5 (by decide) (by decide)
     (by decide) (by decide)⟩
